import Mathlib

/-!
Verification of `react-crud-hook` (src/CrudHook/index.tsx).

Shallow embedding of the repository's `useCrud` hook and its `assign`
helper, together with the parts of its environment that the code's
behaviour depends on:

* JavaScript objects are modelled as association lists of own-property
  descriptors (`ObjData`), living in a `Heap` indexed by addresses, so
  that object identity (`ob === ob`) and freshness of allocation are
  expressible.  `Object.defineProperties` / `Object.getOwnPropertyDescriptors`
  become `defineProperties` (our `ObjData` *is* the descriptor map).
* The external `lemon-curd` `CrudManager` is abstract: a pair of
  functions `save`/`delete` of arbitrary result type.  The external
  `resma` `Record` constructor is modelled by what the repository's own
  tests observe of it: the instance stores the input record unchanged in
  its `_record` field and keeps the change callback it was constructed
  with; `setAttribute` updates the draft and invokes that callback with
  a fresh object.
* The context provider lives in `src/Provider`, which is not part of the
  source tree given here; it is modelled from the spec (see
  `ProviderContext`).

Property keys are an abstract type with decidable equality, so that no
particular string encoding is baked in.
-/

namespace ReactCrudHook

/-! ## Association lists of own properties -/

/-- A JavaScript property descriptor: either a data descriptor (`value`,
`writable`) or an accessor descriptor (`get?`, `set?`), always with
`enumerable` and `configurable` flags.  The payload type `υ` is abstract. -/
structure Desc (υ : Type) where
  value : Option υ
  writable : Bool
  get? : Option υ
  set? : Option υ
  enumerable : Bool
  configurable : Bool
deriving DecidableEq

/-- The own-property table of a JavaScript object: keys (abstract type `κ`)
paired with their descriptors, in insertion order. -/
abbrev ObjData (κ υ : Type) : Type := List (κ × Desc υ)

/-- First-match lookup in an association list. -/
def lookupEntry {κ β : Type} [DecidableEq κ] : List (κ × β) → κ → Option β
  | [], _ => none
  | (k, v) :: rest, a => if k = a then some v else lookupEntry rest a

/-- Set a key in an association list: replace the first occurrence in
place (JavaScript keeps the original insertion position when a property
is redefined), or append the key if absent. -/
def setEntry {κ β : Type} [DecidableEq κ] : List (κ × β) → κ → β → List (κ × β)
  | [], a, b => [(a, b)]
  | (k, v) :: rest, a, b =>
      if k = a then (a, b) :: rest else (k, v) :: setEntry rest a b

/-- The keys of an association list. -/
def keys {κ β : Type} : List (κ × β) → List κ
  | [] => []
  | (k, _) :: rest => k :: keys rest

theorem lookupEntry_setEntry_self {κ β : Type} [DecidableEq κ]
    (d : List (κ × β)) (k : κ) (v : β) :
    lookupEntry (setEntry d k v) k = some v := by
  induction d with
  | nil => simp [setEntry, lookupEntry]
  | cons kv rest ih =>
      obtain ⟨k1, v1⟩ := kv
      by_cases h : k1 = k
      · subst h; simp [setEntry, lookupEntry]
      · simp [setEntry, lookupEntry, h, ih]

theorem lookupEntry_setEntry_ne {κ β : Type} [DecidableEq κ]
    (d : List (κ × β)) (k a : κ) (v : β) (hne : k ≠ a) :
    lookupEntry (setEntry d k v) a = lookupEntry d a := by
  induction d with
  | nil => simp [setEntry, lookupEntry, hne]
  | cons kv rest ih =>
      obtain ⟨k1, v1⟩ := kv
      by_cases h : k1 = k
      · subst h; simp [setEntry, lookupEntry, hne]
      · simp [setEntry, lookupEntry, h, ih]

theorem lookupEntry_eq_none_of_not_mem {κ β : Type} [DecidableEq κ]
    (d : List (κ × β)) (k : κ) (h : k ∉ keys d) :
    lookupEntry d k = none := by
  induction d with
  | nil => rfl
  | cons kv rest ih =>
      obtain ⟨k1, v1⟩ := kv
      rw [keys] at h
      have h1 : ¬ k1 = k := fun hh => h (hh ▸ List.mem_cons_self k1 (keys rest))
      have h2 : k ∉ keys rest := fun hh => h (List.mem_cons_of_mem k1 hh)
      simp [lookupEntry, h1, ih h2]

theorem keys_setEntry_subset {κ β : Type} [DecidableEq κ]
    (d : List (κ × β)) (k : κ) (v : β) (a : κ) :
    a ∈ keys (setEntry d k v) → a = k ∨ a ∈ keys d := by
  induction d with
  | nil => simp [setEntry, keys]
  | cons kv rest ih =>
      obtain ⟨k1, v1⟩ := kv
      by_cases h : k1 = k
      · have hstep : setEntry ((k1, v1) :: rest) k v = (k, v) :: rest := by
          simp [setEntry, h]
        rw [hstep, keys, keys]
        intro hmem
        rcases List.mem_cons.mp hmem with hmem | hmem
        · exact Or.inl hmem
        · exact Or.inr (List.mem_cons.mpr (Or.inr hmem))
      · have hstep : setEntry ((k1, v1) :: rest) k v = (k1, v1) :: setEntry rest k v := by
          simp [setEntry, h]
        rw [hstep, keys, keys]
        intro hmem
        rcases List.mem_cons.mp hmem with hmem | hmem
        · exact Or.inr (List.mem_cons.mpr (Or.inl hmem))
        · rcases ih hmem with hh | hh
          · exact Or.inl hh
          · exact Or.inr (List.mem_cons.mpr (Or.inr hh))

theorem keys_nodup_setEntry {κ β : Type} [DecidableEq κ]
    (d : List (κ × β)) (k : κ) (v : β) (hnd : (keys d).Nodup) :
    (keys (setEntry d k v)).Nodup := by
  induction d with
  | nil => simp [setEntry, keys]
  | cons kv rest ih =>
      obtain ⟨k1, v1⟩ := kv
      rw [keys, List.nodup_cons] at hnd
      by_cases h : k1 = k
      · have hstep : setEntry ((k1, v1) :: rest) k v = (k, v) :: rest := by
          simp [setEntry, h]
        rw [hstep, keys, List.nodup_cons]
        exact ⟨h ▸ hnd.1, hnd.2⟩
      · have hstep : setEntry ((k1, v1) :: rest) k v = (k1, v1) :: setEntry rest k v := by
          simp [setEntry, h]
        rw [hstep, keys, List.nodup_cons]
        exact ⟨fun hmem => (keys_setEntry_subset rest k v k1 hmem).elim h hnd.1, ih hnd.2⟩

/-! ## `Object.defineProperties` and the heap of objects -/

/-- Model of `Object.defineProperties(t, props)`: define every own property of
`props` on `t`, in order.  Since an `ObjData` *is* its own-property
descriptor map, `Object.getOwnPropertyDescriptors` is the identity and
this function is also the one-source step of `assign`. -/
def defineProperties {κ υ : Type} [DecidableEq κ] (t props : ObjData κ υ) : ObjData κ υ :=
  props.foldl (fun acc kv => setEntry acc kv.1 kv.2) t

theorem defineProperties_nil {κ υ : Type} [DecidableEq κ] (t : ObjData κ υ) :
    defineProperties t [] = t := rfl

theorem defineProperties_cons {κ υ : Type} [DecidableEq κ]
    (t : ObjData κ υ) (kv : κ × Desc υ) (rest : ObjData κ υ) :
    defineProperties t (kv :: rest) = defineProperties (setEntry t kv.1 kv.2) rest := rfl

/-- Pointwise content of a descriptor copy: a key defined by the source
keeps the source's descriptor (getters/setters and flags included, since
the whole `Desc` travels); a key the source does not define keeps the
target's descriptor. -/
theorem lookupEntry_defineProperties {κ υ : Type} [DecidableEq κ]
    (t s : ObjData κ υ) (k : κ) (hnd : (keys s).Nodup) :
    lookupEntry (defineProperties t s) k =
      ((lookupEntry s k).orElse fun _ => lookupEntry t k) := by
  induction s generalizing t with
  | nil => simp [defineProperties, lookupEntry, Option.orElse]
  | cons kv rest ih =>
      obtain ⟨k1, d1⟩ := kv
      rw [keys, List.nodup_cons] at hnd
      rw [defineProperties_cons, ih _ hnd.2]
      by_cases h : k1 = k
      · have hrest : lookupEntry rest k = none :=
          lookupEntry_eq_none_of_not_mem rest k (h ▸ hnd.1)
        rw [hrest]
        have hself : lookupEntry (setEntry t k1 d1) k = some d1 := h ▸ lookupEntry_setEntry_self t k1 d1
        rw [hself]
        simp [lookupEntry, h, Option.orElse]
      · rw [lookupEntry_setEntry_ne t k1 k d1 h]
        simp [lookupEntry, h]

/-- A heap of JavaScript objects: addresses (`Nat`) mapped to stored data,
with a fresh-address counter.  Object identity is address equality. -/
structure Heap (δ : Type) where
  objs : List (Nat × δ)
  next : Nat

/-- Dereference an address. -/
def Heap.lookup {δ : Type} (h : Heap δ) (a : Nat) : Option δ :=
  lookupEntry h.objs a

/-- Overwrite the object stored at an address. -/
def Heap.set {δ : Type} (h : Heap δ) (a : Nat) (d : δ) : Heap δ :=
  { objs := setEntry h.objs a d, next := h.next }

/-- Allocate a fresh object; returns its (previously unused) address. -/
def Heap.alloc {δ : Type} (h : Heap δ) (d : δ) : Nat × Heap δ :=
  (h.next, { objs := setEntry h.objs h.next d, next := h.next + 1 })

theorem Heap.lookup_set_self {δ : Type} (h : Heap δ) (a : Nat) (d : δ) :
    Heap.lookup (Heap.set h a d) a = some d :=
  lookupEntry_setEntry_self h.objs a d

theorem Heap.lookup_set_ne {δ : Type} (h : Heap δ) (a b : Nat) (d : δ) (hne : a ≠ b) :
    Heap.lookup (Heap.set h a d) b = Heap.lookup h b :=
  lookupEntry_setEntry_ne h.objs a b d hne

/-! ## The `assign` helper (src/CrudHook/index.tsx, lines 12-16)

```ts
const assign = (ob: any, ...o: any) => {
  o.forEach((obj: any) =>{if (typeof obj !== "undefined")
    Object.defineProperties(ob, Object.getOwnPropertyDescriptors(obj))})
  return ob
}
```

Rest arguments are a list; an `undefined` argument is `none`. -/

/-- One iteration of `assign`'s `forEach` body: skip `undefined`,
otherwise copy the source's own property descriptors onto `ob`. -/
def assignStep {κ υ : Type} [DecidableEq κ] (ob : Nat) (h : Heap (ObjData κ υ)) :
    Option Nat → Heap (ObjData κ υ)
  | none => h
  | some a =>
      Heap.set h ob
        (defineProperties ((Heap.lookup h ob).getD []) ((Heap.lookup h a).getD []))

/-- The `assign` helper itself: fold the step over the rest arguments and
return `ob`. -/
def assign {κ υ : Type} [DecidableEq κ] (h : Heap (ObjData κ υ)) (ob : Nat)
    (srcs : List (Option Nat)) : Nat × Heap (ObjData κ υ) :=
  (ob, srcs.foldl (assignStep ob) h)

/-- The pure content `assign` accumulates on its target: each defined
source's own descriptors copied in order, `undefined` sources skipped. -/
def copySources {κ υ : Type} [DecidableEq κ] (h : Heap (ObjData κ υ))
    (d0 : ObjData κ υ) (srcs : List (Option Nat)) : ObjData κ υ :=
  srcs.foldl
    (fun d s =>
      match s with
      | none => d
      | some a => defineProperties d ((Heap.lookup h a).getD [])) d0

theorem assign_fst {κ υ : Type} [DecidableEq κ] (h : Heap (ObjData κ υ)) (ob : Nat)
    (srcs : List (Option Nat)) : (assign h ob srcs).1 = ob := rfl

theorem assignStep_lookup_ne {κ υ : Type} [DecidableEq κ] (ob : Nat)
    (h : Heap (ObjData κ υ)) (s : Option Nat) (a : Nat) (hne : a ≠ ob) :
    Heap.lookup (assignStep ob h s) a = Heap.lookup h a := by
  cases s with
  | none => rfl
  | some b => exact Heap.lookup_set_ne h ob a _ (fun hh => hne hh.symm)

theorem assign_lookup_ne {κ υ : Type} [DecidableEq κ] (h : Heap (ObjData κ υ)) (ob : Nat)
    (srcs : List (Option Nat)) (a : Nat) (hne : a ≠ ob) :
    Heap.lookup (assign h ob srcs).2 a = Heap.lookup h a := by
  induction srcs generalizing h with
  | nil => rfl
  | cons s rest ih =>
      show Heap.lookup (assign (assignStep ob h s) ob rest).2 a = Heap.lookup h a
      rw [ih (assignStep ob h s), assignStep_lookup_ne ob h s a hne]

theorem copySources_congr {κ υ : Type} [DecidableEq κ]
    (h1 h2 : Heap (ObjData κ υ)) (d0 : ObjData κ υ) (srcs : List (Option Nat))
    (hagree : ∀ a, some a ∈ srcs → Heap.lookup h1 a = Heap.lookup h2 a) :
    copySources h1 d0 srcs = copySources h2 d0 srcs := by
  induction srcs generalizing d0 with
  | nil => rfl
  | cons s rest ih =>
      cases s with
      | none =>
          exact ih d0 fun a ha => hagree a (List.mem_cons_of_mem none ha)
      | some b =>
          show copySources h1 (defineProperties d0 ((Heap.lookup h1 b).getD [])) rest
              = copySources h2 (defineProperties d0 ((Heap.lookup h2 b).getD [])) rest
          rw [hagree b (List.mem_cons_self (some b) rest)]
          exact ih _ fun a ha => hagree a (List.mem_cons_of_mem (some b) ha)

theorem assign_lookup_self {κ υ : Type} [DecidableEq κ] (h : Heap (ObjData κ υ)) (ob : Nat)
    (srcs : List (Option Nat)) (hself : some ob ∉ srcs) :
    (Heap.lookup (assign h ob srcs).2 ob).getD [] =
      copySources h ((Heap.lookup h ob).getD []) srcs := by
  induction srcs generalizing h with
  | nil => rfl
  | cons s rest ih =>
      have hs : s ≠ some ob := fun hh => hself (hh ▸ List.mem_cons_self s rest)
      have hrest : some ob ∉ rest := fun hh => hself (List.mem_cons_of_mem s hh)
      cases s with
      | none => exact ih h hrest
      | some b =>
          have hb : b ≠ ob := fun hh => hs (hh ▸ rfl)
          show (Heap.lookup (assign (assignStep ob h (some b)) ob rest).2 ob).getD []
              = copySources h ((Heap.lookup h ob).getD []) (some b :: rest)
          rw [ih (assignStep ob h (some b)) hrest]
          have hlook : Heap.lookup (assignStep ob h (some b)) ob
              = some (defineProperties ((Heap.lookup h ob).getD []) ((Heap.lookup h b).getD [])) :=
            Heap.lookup_set_self h ob _
          rw [copySources_congr (assignStep ob h (some b)) h _ rest
              (fun a ha => assignStep_lookup_ne ob h (some b) a
                (fun hh => hrest (hh ▸ ha)))]
          rw [hlook]
          rfl

/-- C6: `assign(ob, ...o)` returns the very target it was given, touches no
other object, skips `undefined` sources (the `none` branch of
`copySources`/`assignStep`), and for each defined source copies all of that
source's own property descriptors onto the target — wholesale `Desc`
transfer, so getters/setters and enumerability travel — with a later
source's descriptor winning over an earlier one's for the same key
(the `Option.orElse` shape of the pointwise copy). -/
theorem assign_spec {κ υ : Type} [DecidableEq κ] (h : Heap (ObjData κ υ))
    (ob : Nat) (srcs : List (Option Nat)) (hself : some ob ∉ srcs) :
    (assign h ob srcs).1 = ob
    ∧ (∀ a, a ≠ ob → Heap.lookup (assign h ob srcs).2 a = Heap.lookup h a)
    ∧ (Heap.lookup (assign h ob srcs).2 ob).getD [] =
        copySources h ((Heap.lookup h ob).getD []) srcs
    ∧ ∀ t s : ObjData κ υ, ∀ k : κ, (keys s).Nodup →
        lookupEntry (defineProperties t s) k =
          ((lookupEntry s k).orElse fun _ => lookupEntry t k) :=
  ⟨assign_fst h ob srcs,
   fun a ha => assign_lookup_ne h ob srcs a ha,
   assign_lookup_self h ob srcs hself,
   fun t s k hnd => lookupEntry_defineProperties t s k hnd⟩

/-- A concrete data descriptor, for witnesses. -/
def descData : Desc Nat := ⟨some 1, true, none, none, true, true⟩

/-- A concrete accessor descriptor, for witnesses. -/
def descAccessor : Desc Nat := ⟨none, false, some 9, none, false, true⟩

/-- A concrete two-object heap, for witnesses. -/
def exampleHeap : Heap (ObjData Nat Nat) :=
  ⟨[(0, [(5, descData)]), (1, [(5, descAccessor), (6, descData)])], 2⟩

theorem assign_spec_witness :
    (some 0 ∉ ([some 1, none] : List (Option Nat)))
    ∧ (Heap.lookup (assign exampleHeap 0 [some 1, none]).2 0).getD [] =
        copySources exampleHeap ((Heap.lookup exampleHeap 0).getD []) [some 1, none] :=
  ⟨by decide, (assign_spec exampleHeap 0 [some 1, none] (by decide)).2.2.1⟩

/-! ## Functional model of `useCrud` (src/CrudHook/index.tsx, lines 18-35)

```ts
export function useCrud (record: IRecord): CrudRecord {
  const crudManager = useContext(CrudContext)
  const [reference, forceRender] = useState({})

  return useMemo(() => {
    const CrudRecord = new Record(record, forceRender) as CrudRecord

    CrudRecord.save = function (options?: Options) {
      return crudManager.save(CrudRecord._record, options)
    }

    CrudRecord.delete = function (options?: Options) {
      return crudManager.delete(CrudRecord._record, options)
    }

    return assign({}, CrudRecord)
  }, [reference, record])
}
```

The record type `R`, the options type `O`, the manager's result type `S`,
the store type `T` and the change-callback type `K` are all abstract: the
hook never inspects any of them. -/

/-- The external `lemon-curd` `CrudManager`, abstract: whatever its `save`
and `delete` do is captured by arbitrary functions into an arbitrary
result type. -/
structure Manager (R O S : Type) where
  save : R → Option O → S
  delete : R → Option O → S

/-- The external `resma` `Record` instance, as the repository's tests
observe it: `new Record(record, cb)` stores the input record unchanged in
`_record` and keeps the change callback `cb` it was constructed with. -/
structure Record (R K : Type) where
  _record : R
  changeCallback : K

/-- Modelled from the spec: the context provider (`src/Provider`, whose
source file is not in the tree given here) "distributes a manager and a
store" to consumers.  `CrudContext` carries the manager, which is what
`useContext(CrudContext)` hands to `useCrud`. -/
structure ProviderContext (R O S T : Type) where
  manager : Manager R O S
  store : T

/-- Modelled from the spec: `useContext(CrudContext)` inside a consumer of
the provider yields the manager the provider distributes. -/
def readCrudContext {R O S T : Type} (ctx : ProviderContext R O S T) : Manager R O S :=
  ctx.manager

/-- The wrapper returned by `useCrud`, projected onto the members the
functional claims speak about: the underlying record and the two mutation
methods added by the hook. -/
structure CrudRecord (R O S : Type) where
  _record : R
  save : Option O → S
  delete : Option O → S

/-- Body of the `useMemo` callback: construct the `resma` record draft
with `forceRender` as its change callback, then attach `save` and
`delete`, each closing over the instance's `_record` and the context
manager. -/
def useCrudMemo {R O S K : Type} (crudManager : Manager R O S) (forceRender : K)
    (record : R) : CrudRecord R O S :=
  let crudRecord : Record R K := Record.mk record forceRender
  { _record := crudRecord._record
    save := fun options => crudManager.save crudRecord._record options
    delete := fun options => crudManager.delete crudRecord._record options }

/-- The hook `useCrud(record)`: read the manager from context, then the memoised
body.  The ambient React inputs (context value, state setter) are
explicit parameters. -/
def useCrud {R O S T K : Type} (ctx : ProviderContext R O S T) (forceRender : K)
    (record : R) : CrudRecord R O S :=
  useCrudMemo (readCrudContext ctx) forceRender record

/-- A JavaScript call `useCrud(record, options)` with a second argument:
the implementation's parameter list has a single formal parameter, so the
extra argument is never bound and the call behaves as `useCrud(record)`.
`P` models the README's `{ unSubscribeDelay, onUnSubscribe }` shape,
abstractly. -/
def useCrudTwoArgs {R O S T K P : Type} (ctx : ProviderContext R O S T) (forceRender : K)
    (record : R) (_hookOptions : Option P) : CrudRecord R O S :=
  useCrud ctx forceRender record

/-- C1: for every manager behaviour, record and options, the wrapper's
`save(options)` is exactly `crudManager.save(CrudRecord._record, options)`
— the record is the instance's `_record`, the options pass through
unchanged, and the manager's return value is returned as is; `delete`
likewise.  Because this holds for *arbitrary* `Manager` functions into an
*arbitrary* result type, the hook body itself performs no
create/update/delete orchestration and no callback handling: whatever the
external manager returns is all that happens. -/
theorem useCrud_save_delete_delegate {R O S T K : Type} (ctx : ProviderContext R O S T)
    (forceRender : K) (record : R) (options : Option O) :
    (useCrud ctx forceRender record).save options
        = (readCrudContext ctx).save (useCrud ctx forceRender record)._record options
    ∧ (useCrud ctx forceRender record).delete options
        = (readCrudContext ctx).delete (useCrud ctx forceRender record)._record options
    ∧ (useCrud ctx forceRender record)._record = record :=
  ⟨rfl, rfl, rfl⟩

/-- C4: the provider distributes a manager and a store
(`ProviderContext`, modelled from the spec), and the manager the
wrapper's `save`/`delete` dispatch to is exactly the one `useCrud` reads
from that context via `useContext`. -/
theorem useCrud_manager_from_context {R O S T K : Type} (manager : Manager R O S)
    (store : T) (forceRender : K) (record : R) (options : Option O) :
    readCrudContext (ProviderContext.mk manager store) = manager
    ∧ (useCrud (ProviderContext.mk manager store) forceRender record).save options
        = manager.save record options
    ∧ (useCrud (ProviderContext.mk manager store) forceRender record).delete options
        = manager.delete record options :=
  ⟨rfl, rfl, rfl⟩

/-- C5: `useCrud` neither parses nor validates its record argument and
raises no error for a malformed one: the record type `R` is completely
abstract (the hook cannot even inspect a record, let alone reject one),
`useCrud` is a total function on all of `R`, and every input `record` is
forwarded unchanged — it is the wrapper's `_record` and it is what the
manager's `save`/`delete` receive. -/
theorem useCrud_forwards_record_unchanged {R O S T K : Type}
    (ctx : ProviderContext R O S T) (forceRender : K) (record : R) (options : Option O) :
    (useCrud ctx forceRender record)._record = record
    ∧ (useCrud ctx forceRender record).save options
        = (readCrudContext ctx).save record options
    ∧ (useCrud ctx forceRender record).delete options
        = (readCrudContext ctx).delete record options :=
  ⟨rfl, rfl, rfl⟩

/-- C8: noninterference of the store and of a second `useCrud` argument.
Two runs that differ only in the store distributed by the provider, and
only in the (README-documented, implementation-ignored) second argument,
return identical wrappers: the hook's result depends only on the record
and the context manager. -/
theorem useCrud_ignores_store_and_options {R O S T P K : Type} (manager : Manager R O S)
    (s1 s2 : T) (forceRender : K) (record : R) (o1 o2 : Option P) :
    useCrudTwoArgs (ProviderContext.mk manager s1) forceRender record o1
      = useCrudTwoArgs (ProviderContext.mk manager s2) forceRender record o2 :=
  rfl

/-! ## The memo body on the object heap (C2)

At the object level, the `useMemo` callback (1) allocates the `resma`
`Record` instance carrying whatever own properties the external library
gives it (`instData` — `_record`, `setAttribute`, `addHasMany`, ... are
among its keys), (2) assigns `save` and `delete` onto that instance, and
(3) returns `assign({}, CrudRecord)`: a freshly allocated empty object
that receives a descriptor copy of the instance's own properties. -/

/-- Heap-level body of the `useMemo` callback in `useCrud`. -/
def memoBody {κ υ : Type} [DecidableEq κ] (h : Heap (ObjData κ υ)) (instData : ObjData κ υ)
    (kSave kDel : κ) (dSave dDel : Desc υ) : Nat × Heap (ObjData κ υ) :=
  let p1 := Heap.alloc h instData
  let h2 := Heap.set p1.2 p1.1
    (setEntry (setEntry ((Heap.lookup p1.2 p1.1).getD []) kSave dSave) kDel dDel)
  let p3 := Heap.alloc h2 []
  assign p3.2 p3.1 [some p1.1]

theorem memoBody_fst {κ υ : Type} [DecidableEq κ] (h : Heap (ObjData κ υ))
    (instData : ObjData κ υ) (kSave kDel : κ) (dSave dDel : Desc υ) :
    (memoBody h instData kSave kDel dSave dDel).1 = h.next + 1 := rfl

theorem memoBody_lookup {κ υ : Type} [DecidableEq κ] (h : Heap (ObjData κ υ))
    (instData : ObjData κ υ) (kSave kDel : κ) (dSave dDel : Desc υ) :
    Heap.lookup (memoBody h instData kSave kDel dSave dDel).2 (h.next + 1)
      = some (defineProperties []
          (setEntry (setEntry instData kSave dSave) kDel dDel)) := by
  have hne1 : h.next + 1 ≠ h.next := Nat.succ_ne_self h.next
  simp only [memoBody, assign, assignStep, List.foldl, Heap.alloc, Heap.set, Heap.lookup]
  rw [lookupEntry_setEntry_self]
  rw [lookupEntry_setEntry_self]
  rw [lookupEntry_setEntry_ne _ _ _ _ hne1]
  rw [lookupEntry_setEntry_self]
  rw [lookupEntry_setEntry_self]
  rfl

theorem memoBody_lookup_ne {κ υ : Type} [DecidableEq κ] (h : Heap (ObjData κ υ))
    (instData : ObjData κ υ) (kSave kDel : κ) (dSave dDel : Desc υ) (a : Nat)
    (ha1 : a ≠ h.next) (ha2 : a ≠ h.next + 1) :
    Heap.lookup (memoBody h instData kSave kDel dSave dDel).2 a = Heap.lookup h a := by
  simp only [memoBody, assign, assignStep, List.foldl, Heap.alloc, Heap.set, Heap.lookup]
  rw [lookupEntry_setEntry_ne _ _ _ _ (fun hh => ha2 hh.symm)]
  rw [lookupEntry_setEntry_ne _ _ _ _ (fun hh => ha2 hh.symm)]
  rw [lookupEntry_setEntry_ne _ _ _ _ (fun hh => ha1 hh.symm)]
  rw [lookupEntry_setEntry_ne _ _ _ _ (fun hh => ha1 hh.symm)]

/-- C2: the wrapper returned by the memo body is a fresh object (the
address `h.next + 1`, newly allocated, in particular distinct from the
`Record` instance at `h.next`), its `save` and `delete` keys are own
properties holding the descriptors the hook installed, and every other
own property of the underlying `Record` instance — `setAttribute`,
`addHasMany` and the rest live among `instData`'s keys — arrives on it
unchanged through the property-descriptor copy. -/
theorem useCrud_wrapper_carries_own_props {κ υ : Type} [DecidableEq κ]
    (h : Heap (ObjData κ υ)) (instData : ObjData κ υ) (kSave kDel : κ)
    (dSave dDel : Desc υ) (hnd : (keys instData).Nodup) (hkk : kSave ≠ kDel) :
    (memoBody h instData kSave kDel dSave dDel).1 = h.next + 1
    ∧ (memoBody h instData kSave kDel dSave dDel).1 ≠ h.next
    ∧ lookupEntry ((Heap.lookup (memoBody h instData kSave kDel dSave dDel).2
        (memoBody h instData kSave kDel dSave dDel).1).getD []) kSave = some dSave
    ∧ lookupEntry ((Heap.lookup (memoBody h instData kSave kDel dSave dDel).2
        (memoBody h instData kSave kDel dSave dDel).1).getD []) kDel = some dDel
    ∧ ∀ k, k ≠ kSave → k ≠ kDel →
        lookupEntry ((Heap.lookup (memoBody h instData kSave kDel dSave dDel).2
          (memoBody h instData kSave kDel dSave dDel).1).getD []) k
          = lookupEntry instData k := by
  have hnd1 : (keys (setEntry instData kSave dSave)).Nodup :=
    keys_nodup_setEntry instData kSave dSave hnd
  have hnd2 : (keys (setEntry (setEntry instData kSave dSave) kDel dDel)).Nodup :=
    keys_nodup_setEntry _ kDel dDel hnd1
  have hdata : (Heap.lookup (memoBody h instData kSave kDel dSave dDel).2
      (memoBody h instData kSave kDel dSave dDel).1).getD []
      = defineProperties [] (setEntry (setEntry instData kSave dSave) kDel dDel) := by
    rw [memoBody_fst, memoBody_lookup]
    rfl
  refine ⟨memoBody_fst h instData kSave kDel dSave dDel, Nat.succ_ne_self h.next, ?_, ?_, ?_⟩
  · rw [hdata, lookupEntry_defineProperties _ _ _ hnd2]
    rw [lookupEntry_setEntry_ne _ kDel kSave dDel (fun hh => hkk hh.symm)]
    rw [lookupEntry_setEntry_self]
    rfl
  · rw [hdata, lookupEntry_defineProperties _ _ _ hnd2]
    rw [lookupEntry_setEntry_self]
    rfl
  · intro k hks hkd
    rw [hdata, lookupEntry_defineProperties _ _ _ hnd2]
    rw [lookupEntry_setEntry_ne _ kDel k dDel (fun hh => hkd hh.symm)]
    rw [lookupEntry_setEntry_ne _ kSave k dSave (fun hh => hks hh.symm)]
    cases hE : lookupEntry instData k with
    | none => rfl
    | some d => rfl

/-- A concrete own-property table for a `Record` instance, for witnesses:
one ordinary property under key `3`. -/
def exampleInstData : ObjData Nat Nat := [(3, descData)]

theorem useCrud_wrapper_carries_own_props_witness :
    ((keys exampleInstData).Nodup ∧ (0 : Nat) ≠ 1)
    ∧ lookupEntry ((Heap.lookup (memoBody ⟨[], 0⟩ exampleInstData 0 1 descData descAccessor).2
        (memoBody (⟨[], 0⟩ : Heap (ObjData Nat Nat)) exampleInstData 0 1 descData
          descAccessor).1).getD []) 0 = some descData :=
  ⟨⟨by decide, by decide⟩,
   (useCrud_wrapper_carries_own_props ⟨[], 0⟩ exampleInstData 0 1 descData descAccessor
     (by decide) (by decide)).2.2.1⟩

/-! ## Render-loop model: mutation methods force a re-render (C3) -/

/-- What the consuming component sees of the wrapper on a given render:
the attributes of the record draft at memoisation time. -/
structure WrapperView (κ ν : Type) where
  attributes : List (κ × ν)
deriving DecidableEq

/-- State of one mounted `useCrud` across renders: the allocator for
fresh `{}` identities, the current `useState` value (`reference`), the
mutable attribute map of the record object the draft wraps, and the
`useMemo` cache (dep identity paired with the cached wrapper).  The
record prop is fixed in this scenario, so `reference` is the live dep. -/
structure HookSim (κ ν : Type) where
  freshCounter : Nat
  reference : Nat
  recordAttrs : List (κ × ν)
  memo : Option (Nat × WrapperView κ ν)

/-- One render of the hook: `useMemo` hands back the cached wrapper when
the `reference` dep is unchanged, and otherwise recomputes a wrapper
reflecting the current draft. -/
def renderSim {κ ν : Type} (s : HookSim κ ν) : WrapperView κ ν × HookSim κ ν :=
  match s.memo with
  | some (r0, w) =>
      if r0 = s.reference then (w, s)
      else (⟨s.recordAttrs⟩, { s with memo := some (s.reference, ⟨s.recordAttrs⟩) })
  | none => (⟨s.recordAttrs⟩, { s with memo := some (s.reference, ⟨s.recordAttrs⟩) })

/-- The wrapper method `setAttribute(k, v)` as the repository wires it:
line 23 constructs the `resma` draft with the hook state setter
`forceRender` as its change callback, so the mutation updates the draft
in place and the callback stores a fresh `{}` as the `useState` value. -/
def setAttribute {κ ν : Type} [DecidableEq κ] (s : HookSim κ ν) (k : κ) (v : ν) :
    HookSim κ ν :=
  { freshCounter := s.freshCounter + 1
    reference := s.freshCounter
    recordAttrs := setEntry s.recordAttrs k v
    memo := s.memo }

/-- C3: invoking a mutation method schedules a re-render and the hook
then reflects the mutated draft.  After `setAttribute(k, v)` the
`useState` value differs from the previous one (a state update with a
fresh object, which is what makes React re-render the consumer), the
next render misses the memo cache, and the wrapper it returns carries
the draft with the new attribute value observable under `k`. -/
theorem setAttribute_forces_rerender {κ ν : Type} [DecidableEq κ] (s : HookSim κ ν)
    (k : κ) (v : ν) (hfresh : s.reference < s.freshCounter)
    (hmemo : ∀ rw0, s.memo = some rw0 → rw0.1 < s.freshCounter) :
    (setAttribute s k v).reference ≠ s.reference
    ∧ ((renderSim (setAttribute s k v)).1).attributes = (setAttribute s k v).recordAttrs
    ∧ lookupEntry ((renderSim (setAttribute s k v)).1).attributes k = some v := by
  have hattrs : ((renderSim (setAttribute s k v)).1).attributes = setEntry s.recordAttrs k v := by
    cases hm : s.memo with
    | none => simp [renderSim, setAttribute, hm]
    | some rw0 =>
        obtain ⟨r0, w⟩ := rw0
        have hne : ¬ r0 = s.freshCounter := Nat.ne_of_lt (hmemo (r0, w) hm)
        simp [renderSim, setAttribute, hm, hne]
  refine ⟨?_, hattrs, ?_⟩
  · show s.freshCounter ≠ s.reference
    omega
  · rw [hattrs]
    exact lookupEntry_setEntry_self s.recordAttrs k v

/-- A concrete freshly mounted hook state, for witnesses. -/
def exampleHookSim : HookSim Nat Nat := ⟨1, 0, [], none⟩

theorem setAttribute_forces_rerender_witness :
    exampleHookSim.reference < exampleHookSim.freshCounter
    ∧ (setAttribute exampleHookSim 7 42).reference ≠ exampleHookSim.reference
    ∧ lookupEntry ((renderSim (setAttribute exampleHookSim 7 42)).1).attributes 7 = some 42 :=
  ⟨by decide,
   (setAttribute_forces_rerender exampleHookSim 7 42 (by decide)
     (fun rw0 hh => nomatch hh)).1,
   (setAttribute_forces_rerender exampleHookSim 7 42 (by decide)
     (fun rw0 hh => nomatch hh)).2.2⟩

/-! ## Wrapper identity across recomputes (C7) -/

/-- Object-level state of one mounted `useCrud`: the heap, the identity
of the current `useState` value, and the `useMemo` cache — the dep pair
(identity of the `reference` object, identity of the record prop) and
the address of the cached wrapper. -/
structure HookSt (κ υ : Type) where
  heap : Heap (ObjData κ υ)
  referenceObj : Nat
  memo : Option (Nat × Nat × Nat)

/-- One render at the object level: `useMemo` compares its deps
`[reference, record]` by identity; on a hit it hands back the cached
wrapper address and leaves the heap alone, on a miss it runs `memoBody`
and caches the freshly built wrapper. -/
def renderHook {κ υ : Type} [DecidableEq κ] (s : HookSt κ υ) (recordProp : Nat)
    (instData : ObjData κ υ) (kSave kDel : κ) (dSave dDel : Desc υ) :
    Nat × HookSt κ υ :=
  match s.memo with
  | some (r0, rec0, w) =>
      if r0 = s.referenceObj ∧ rec0 = recordProp then (w, s)
      else
        ((memoBody s.heap instData kSave kDel dSave dDel).1,
         { heap := (memoBody s.heap instData kSave kDel dSave dDel).2
           referenceObj := s.referenceObj
           memo := some (s.referenceObj, recordProp,
             (memoBody s.heap instData kSave kDel dSave dDel).1) })
  | none =>
      ((memoBody s.heap instData kSave kDel dSave dDel).1,
       { heap := (memoBody s.heap instData kSave kDel dSave dDel).2
         referenceObj := s.referenceObj
         memo := some (s.referenceObj, recordProp,
           (memoBody s.heap instData kSave kDel dSave dDel).1) })

/-- The `forceRender` state setter as the change callback invokes it on
a record state change: a fresh `{}` object becomes the `useState` value,
so the next render sees a different `reference` dep. -/
def forceRenderH {κ υ : Type} (s : HookSt κ υ) : HookSt κ υ :=
  { heap := (Heap.alloc s.heap []).2
    referenceObj := (Heap.alloc s.heap []).1
    memo := s.memo }

/-- C7: each recompute — after a mutation-triggered `forceRender`, whose
fresh `{}` invalidates the `reference` dep, or after the record prop
changes identity — returns a brand-new wrapper object: its address
differs from the previously returned wrapper's, and the object stored at
the previous wrapper's address is left untouched by the hook. -/
theorem rerender_returns_fresh_wrapper {κ υ : Type} [DecidableEq κ] (s : HookSt κ υ)
    (recordProp : Nat) (instData : ObjData κ υ) (kSave kDel : κ) (dSave dDel : Desc υ)
    (r0 rec0 w0 : Nat) (hmemo : s.memo = some (r0, rec0, w0))
    (hr0 : r0 < s.heap.next) (hw0 : w0 < s.heap.next) :
    ((renderHook (forceRenderH s) recordProp instData kSave kDel dSave dDel).1 ≠ w0
      ∧ Heap.lookup
          ((renderHook (forceRenderH s) recordProp instData kSave kDel dSave dDel).2).heap w0
          = Heap.lookup s.heap w0)
    ∧ (rec0 ≠ recordProp →
        (renderHook s recordProp instData kSave kDel dSave dDel).1 ≠ w0
        ∧ Heap.lookup ((renderHook s recordProp instData kSave kDel dSave dDel).2).heap w0
            = Heap.lookup s.heap w0) := by
  constructor
  · have hmemo1 : (forceRenderH s).memo = some (r0, rec0, w0) := hmemo
    have hcond : ¬ (r0 = (forceRenderH s).referenceObj ∧ rec0 = recordProp) := by
      intro hh
      have h1 : r0 = s.heap.next := hh.1
      omega
    have hfst : (renderHook (forceRenderH s) recordProp instData kSave kDel dSave dDel).1
        = (memoBody (forceRenderH s).heap instData kSave kDel dSave dDel).1 := by
      simp [renderHook, hmemo1, hcond]
    have hsnd : ((renderHook (forceRenderH s) recordProp instData kSave kDel dSave dDel).2).heap
        = (memoBody (forceRenderH s).heap instData kSave kDel dSave dDel).2 := by
      simp [renderHook, hmemo1, hcond]
    have hnext : (forceRenderH s).heap.next = s.heap.next + 1 := rfl
    constructor
    · rw [hfst, memoBody_fst, hnext]
      omega
    · rw [hsnd]
      rw [memoBody_lookup_ne _ _ _ _ _ _ w0 (by omega) (by omega)]
      exact lookupEntry_setEntry_ne s.heap.objs s.heap.next w0 [] (by omega)
  · intro hrec
    have hcond : ¬ (r0 = s.referenceObj ∧ rec0 = recordProp) := fun hh => hrec hh.2
    have hfst : (renderHook s recordProp instData kSave kDel dSave dDel).1
        = (memoBody s.heap instData kSave kDel dSave dDel).1 := by
      simp [renderHook, hmemo, hcond]
    have hsnd : ((renderHook s recordProp instData kSave kDel dSave dDel).2).heap
        = (memoBody s.heap instData kSave kDel dSave dDel).2 := by
      simp [renderHook, hmemo, hcond]
    constructor
    · rw [hfst, memoBody_fst]
      omega
    · rw [hsnd]
      exact memoBody_lookup_ne _ _ _ _ _ _ w0 (by omega) (by omega)

/-- A concrete rendered hook state over `exampleHeap`, for witnesses: the
cached wrapper lives at address 1 and the `reference` dep at address 0. -/
def exampleHookSt : HookSt Nat Nat := ⟨exampleHeap, 0, some (0, 7, 1)⟩

theorem rerender_returns_fresh_wrapper_witness :
    (renderHook (forceRenderH exampleHookSt) 7 exampleInstData 0 1 descData descAccessor).1 ≠ 1
    ∧ Heap.lookup ((renderHook (forceRenderH exampleHookSt) 7 exampleInstData 0 1 descData
        descAccessor).2).heap 1 = Heap.lookup exampleHookSt.heap 1 :=
  (rerender_returns_fresh_wrapper exampleHookSt 7 exampleInstData 0 1 descData descAccessor
    0 7 1 rfl (by decide) (by decide)).1

end ReactCrudHook
